import Mathlib

/-!
Verification of the text-rewrite pipeline of `src/cleanup_picks.py`.

The script is a straight-line sequence of 17 rewrite steps over a string
buffer: five `str.replace(lit, "")`-style literal replacements and twelve
`re.sub(pattern, repl, content)` substitutions.  Every regular expression in
the script falls into a small fragment: a concatenation of
  * string literals,
  * `.*?` — a lazy (non-greedy) star over "any character", where "any"
    excludes the newline unless the DOTALL flag is set (the script's
    `[\s\S]*?` is the DOTALL variant by construction), and
  * `\s*` — a greedy star over Python whitespace.
We embed exactly this fragment.  Matching follows CPython's backtracking
semantics: alternatives of a lazy star are tried shortest first, alternatives
of a greedy star longest first, and `re.sub` replaces every match found in a
single left-to-right scan, resuming immediately after each match.
-/

/-- Python's `\s` character class for `str` patterns (Unicode whitespace as
recognised by CPython's `re` module). -/
def pyIsSpace (c : Char) : Bool :=
  c == ' ' || c == '\t' || c == '\n' || c == '\r' || c == '\x0b' || c == '\x0c' ||
  c == '\x1c' || c == '\x1d' || c == '\x1e' || c == '\x1f' || c == '\x85' || c == '\xa0' ||
  c == '\u1680' || ('\u2000' ≤ c && c ≤ '\u200a') || c == '\u2028' || c == '\u2029' ||
  c == '\u202f' || c == '\u205f' || c == '\u3000'

/-- One item of a pattern in the regex fragment used by the script:
a string literal, a lazy `.*?` star (the `Bool` is the DOTALL flag: whether
`.` may match a newline), or a greedy `\s*` star. -/
inductive RItem where
  | lit : List Char → RItem
  | anyLazy : Bool → RItem
  | wsGreedy : RItem
deriving DecidableEq

/-- Match a string literal at the head of the text; on success return the
remaining text after the literal. -/
def litPrefix : List Char → List Char → Option (List Char)
  | [], s => some s
  | _ :: _, [] => none
  | c :: l, d :: s => if c = d then litPrefix l s else none

/-- Backtracking for a lazy star: try the continuation `k` after consuming
0, 1, 2, … characters, shortest first; a consumed character must not be a
newline unless `d` (DOTALL) is set. -/
def lazyRun (d : Bool) (k : List Char → Option (List Char)) : List Char → Option (List Char)
  | [] => k []
  | c :: s =>
    match k (c :: s) with
    | some r => some r
    | none => if d || !(c == '\n') then lazyRun d k s else none

/-- Backtracking for a greedy `\s*` star: consume as much whitespace as
possible, then on failure of the continuation `k` backtrack one character at
a time (longest first). -/
def greedyRun (k : List Char → Option (List Char)) : List Char → Option (List Char)
  | [] => k []
  | c :: s =>
    if pyIsSpace c then
      match greedyRun k s with
      | some r => some r
      | none => k (c :: s)
    else k (c :: s)

/-- Match a pattern (list of items) at the head of the text; on success
return the remaining text after the match.  This is the anchored-match core
of the embedded regex engine. -/
def matchItems : List RItem → List Char → Option (List Char)
  | [], s => some s
  | RItem.lit l :: rest, s =>
    match litPrefix l s with
    | some s' => matchItems rest s'
    | none => none
  | RItem.anyLazy d :: rest, s => lazyRun d (fun t => matchItems rest t) s
  | RItem.wsGreedy :: rest, s => greedyRun (fun t => matchItems rest t) s

/-- Does the pattern match at any position of the text? -/
def anyMatch (p : List RItem) : List Char → Bool
  | [] => (matchItems p []).isSome
  | c :: s => (matchItems p (c :: s)).isSome || anyMatch p s

/-- Does the literal occur anywhere in the text (Python `lit in s`)? -/
def containsLit (pat : List Char) : List Char → Bool
  | [] => (litPrefix pat []).isSome
  | c :: s => (litPrefix pat (c :: s)).isSome || containsLit pat s

/-- Fuel-indexed worker for `re.sub`: scan the text left to right, replace
every match of `p` by `repl` (resuming right after each match), and count
the matches.  A zero-width match substitutes and then copies one character,
as CPython does.  The fuel only bounds the recursion; `s.length + 1` steps
always suffice (each step consumes at least one character). -/
def subAllF (p : List RItem) (repl : List Char) : Nat → List Char → List Char × Nat
  | 0, s => (s, 0)
  | f + 1, s =>
    match matchItems p s with
    | some r =>
      if r.length < s.length then
        let t := subAllF p repl f r
        (repl ++ t.1, t.2 + 1)
      else
        match s with
        | [] => (repl, 1)
        | c :: s' =>
          let t := subAllF p repl f s'
          (repl ++ c :: t.1, t.2 + 1)
    | none =>
      match s with
      | [] => ([], 0)
      | c :: s' =>
        let t := subAllF p repl f s'
        (c :: t.1, t.2)

/-- `re.sub(p, repl, s)` together with the match count (`re.subn`). -/
def subAll (p : List RItem) (repl : List Char) (s : List Char) : List Char × Nat :=
  subAllF p repl (s.length + 1) s

/-- Fuel-indexed worker for Python `str.replace`: replace every
non-overlapping occurrence of `pat` by `repl`, scanning left to right.
`s.length + 1` steps always suffice. -/
def replaceAllF (pat repl : List Char) : Nat → List Char → List Char
  | 0, s => s
  | _ + 1, [] => if pat.isEmpty then repl else []
  | f + 1, c :: s =>
    if pat.isEmpty then repl ++ c :: replaceAllF pat repl f s
    else
      match litPrefix pat (c :: s) with
      | some s' => repl ++ replaceAllF pat repl f s'
      | none => c :: replaceAllF pat repl f s

/-- Python `s.replace(pat, repl)`. -/
def replaceAll (pat repl : List Char) (s : List Char) : List Char :=
  replaceAllF pat repl (s.length + 1) s
/-- Line 10: literal removed by `content.replace` (BetCard import). -/
def importLine : List Char := ("import \x7b BetCard \x7d from \x27./BetCard\x27;\n").data

/-- Line 32: literal removed by `content.replace`. -/
def usingHardcoded : List Char := ("\n  // Using hardcoded performance values\n").data

/-- Line 58: literal removed by `content.replace`. -/
def removedUnused : List Char := ("// Removed unused state variables for bet tracking\n").data

/-- Line 59: literal removed by `content.replace`. -/
def toastComment : List Char := ("\n  // Toast notification system").data

/-- Line 62: literal removed by `content.replace`. -/
def reloadKeyDecl : List Char := ("  const [reloadKey, setReloadKey] = useState(0);\n").data

/-- Line 14: `re.sub(r'console\.log\(...'...',.*?\);\n', '', content)` (no DOTALL). -/
def p2a : List RItem :=
  [RItem.lit ("console.log(\x27Complete Supabase data structure:\x27,").data,
   RItem.anyLazy false,
   RItem.lit (");\n").data]

/-- Line 15: `re.sub(r'console\.log\(...'...',.*?\);\n', '', content)` (no DOTALL). -/
def p2b : List RItem :=
  [RItem.lit ("console.log(\x27Direct time field check:\x27,").data,
   RItem.anyLazy false,
   RItem.lit (");\n").data]

/-- Line 16: `re.sub(r'console\.log\(...'...',.*?\);\n', '', content)` (no DOTALL). -/
def p2c : List RItem :=
  [RItem.lit ("console.log(\x27Processing valid pick from Supabase:\x27,").data,
   RItem.anyLazy false,
   RItem.lit (");\n").data]

/-- Line 17: `re.sub(r'console\.log\(...'...',.*?\);\n', '', content)` (no DOTALL). -/
def p2d : List RItem :=
  [RItem.lit ("console.log(\x27Game time from database:\x27,").data,
   RItem.anyLazy false,
   RItem.lit (");\n").data]

/-- The `\);\n` terminator shared by the console.log removal patterns. -/
def termSemi : List Char := (");\n").data

/-- The literal head of the line-18 pattern. -/
def timeVarLit : List Char := ("console.log(\x27Time field variations:\x27,").data

/-- Line 18: `re.sub(r'console\.log\(\'Time field variations:\',.*?\);\n.*?\);\n', '', content, flags=re.DOTALL)`. -/
def p2e : List RItem :=
  [RItem.lit timeVarLit,
   RItem.anyLazy true,
   RItem.lit termSemi,
   RItem.anyLazy true,
   RItem.lit termSemi]

/-- Line 19: `re.sub(r'console\.log\(...'...',.*?\);\n', '', content)` (no DOTALL). -/
def p2f : List RItem :=
  [RItem.lit ("console.log(\x27Valid pick ready for rendering:\x27,").data,
   RItem.anyLazy false,
   RItem.lit (");\n").data]

/-- Line 20: `re.sub(r'console\.log\(...'...',.*?\);\n', '', content)` (no DOTALL). -/
def p2g : List RItem :=
  [RItem.lit ("console.log(\x27Parsed and enhanced picksArray:\x27,").data,
   RItem.anyLazy false,
   RItem.lit (");\n").data]

/-- Line 21: `re.sub(r'console\.log\(\x60Original time parts:.*?\);\n', '', content)`. -/
def p2h : List RItem :=
  [RItem.lit ("console.log(\x60Original time parts:").data,
   RItem.anyLazy false,
   RItem.lit (");\n").data]

/-- Lines 24-29: debug-logs `useEffect` block removal (DOTALL). -/
def p3 : List RItem :=
  [RItem.lit ("// Debug logs for troubleshooting").data,
   RItem.wsGreedy,
   RItem.lit ("\n").data,
   RItem.wsGreedy,
   RItem.lit ("useEffect(() => \x7b").data,
   RItem.wsGreedy,
   RItem.lit ("\n").data,
   RItem.anyLazy true,
   RItem.lit ("console.log").data,
   RItem.anyLazy true,
   RItem.lit ("\n").data,
   RItem.anyLazy true,
   RItem.lit ("console.log").data,
   RItem.anyLazy true,
   RItem.lit ("\n").data,
   RItem.anyLazy true,
   RItem.lit ("console.log").data,
   RItem.anyLazy true,
   RItem.lit ("\n").data,
   RItem.wsGreedy,
   RItem.lit ("\x7d, [picks, loading, error]);\n").data]

/-- The literal segments of the line-35 `old_extract_odds` pattern. -/
def helperLit : List Char := ("// Helper function to extract odds from analysis prompt").data

/-- Function-head literal of the line-35 pattern. -/
def funcHead : List Char := ("const extractOddsFromAnalysis = (pick) => \x7b").data

/-- The `return \'\';` terminator literal of the line-35 pattern. -/
def retLit : List Char := ("return \x27\x27;").data

/-- The closing-brace literal of the line-35 pattern. -/
def closeLit : List Char := ("\x7d;").data

/-- Line 35: `old_extract_odds` pattern (applied with DOTALL; `[\s\S]*?` is the DOTALL lazy star). -/
def oldExtractOdds : List RItem :=
  [RItem.lit helperLit,
   RItem.wsGreedy,
   RItem.lit ("\n").data,
   RItem.wsGreedy,
   RItem.lit funcHead,
   RItem.anyLazy true,
   RItem.lit retLit,
   RItem.wsGreedy,
   RItem.lit ("\n").data,
   RItem.wsGreedy,
   RItem.lit closeLit]

/-- Lines 36-54: the exact value of the `new_extract_odds` replacement string
(the Python escapes `\\(`, `\\d`, `\\)` of the triple-quoted literal denote the
two-character sequences backslash-`(`, backslash-`d`, backslash-`)`). -/
def newExtractOdds : List Char :=
  ("// Helper function to extract odds from analysis prompt\n            const extractOddsFromAnalysis = (pick) => \x7b\n              try \x7b\n                // Try to get directly from OpenAI output\n                if (pick.rawAnalysis?.rawOpenAIOutput?.odds) \x7b\n                  return pick.rawAnalysis.rawOpenAIOutput.odds;\n                \x7d\n                \n                // Extract from analysis prompt if available\n                if (pick.analysisPrompt) \x7b\n                  const teamName = pick.pick?.split(\x27 \x27).slice(0, -1).join(\x27 \x27);\n                  const oddsMatch = pick.analysisPrompt.match(new RegExp(\x60$\x7bteamName\x7d.*?\\(([-+]?\\d+)\\)\x60));\n                  if (oddsMatch) return oddsMatch[1];\n                \x7d\n              \x7d catch (error) \x7b\n                console.error(\x27Error extracting odds:\x27, error);\n              \x7d\n              return \x27\x27;\n            \x7d;").data

/-- Line 64: `setReloadKey` block removal (DOTALL). -/
def p7b : List RItem :=
  [RItem.lit ("// Increment reloadKey to force BetCard to reload").data,
   RItem.wsGreedy,
   RItem.lit ("\n").data,
   RItem.wsGreedy,
   RItem.lit ("setReloadKey(prev => \x7b").data,
   RItem.wsGreedy,
   RItem.lit ("\n").data,
   RItem.anyLazy true,
   RItem.lit ("\n").data,
   RItem.anyLazy true,
   RItem.lit ("\n").data,
   RItem.wsGreedy,
   RItem.lit ("\x7d);").data,
   RItem.wsGreedy,
   RItem.lit ("\n").data]

/-- Line 67: `pageTitle` removal (`[\s\S]*?` is the DOTALL lazy star). -/
def p8 : List RItem :=
  [RItem.lit ("const pageTitle = visiblePicks.length").data,
   RItem.anyLazy true,
   RItem.lit ("\x22Gary\x27s Picks\x22;\n").data]

/-- Line 10: `content = content.replace("import { BetCard } from './BetCard';\n", "")`. -/
def r1 (s : List Char) : List Char := replaceAll importLine [] s

/-- Line 14. -/
def r2a (s : List Char) : List Char := (subAll p2a [] s).1

/-- Line 15. -/
def r2b (s : List Char) : List Char := (subAll p2b [] s).1

/-- Line 16. -/
def r2c (s : List Char) : List Char := (subAll p2c [] s).1

/-- Line 17. -/
def r2d (s : List Char) : List Char := (subAll p2d [] s).1

/-- Line 18. -/
def r2e (s : List Char) : List Char := (subAll p2e [] s).1

/-- Line 19. -/
def r2f (s : List Char) : List Char := (subAll p2f [] s).1

/-- Line 20. -/
def r2g (s : List Char) : List Char := (subAll p2g [] s).1

/-- Line 21. -/
def r2h (s : List Char) : List Char := (subAll p2h [] s).1

/-- Lines 24-29. -/
def r3 (s : List Char) : List Char := (subAll p3 [] s).1

/-- Line 32. -/
def r4 (s : List Char) : List Char := replaceAll usingHardcoded [] s

/-- Line 55: `content = re.sub(old_extract_odds, new_extract_odds, content, flags=re.DOTALL)`,
with the replacement template inserted verbatim (its backslash escapes `\(`, `\d`, `\)`
are non-letter or intended-literal sequences; see `parseTemplate` for the escape
processing that CPython ≥ 3.7 actually applies to this template). -/
def r5 (s : List Char) : List Char := (subAll oldExtractOdds newExtractOdds s).1

/-- Line 58. -/
def r6a (s : List Char) : List Char := replaceAll removedUnused [] s

/-- Line 59. -/
def r6b (s : List Char) : List Char := replaceAll toastComment [] s

/-- Line 62. -/
def r7a (s : List Char) : List Char := replaceAll reloadKeyDecl [] s

/-- Line 64. -/
def r7b (s : List Char) : List Char := (subAll p7b [] s).1

/-- Line 67. -/
def r8 (s : List Char) : List Char := (subAll p8 [] s).1

/-- Lines 10-67: the whole content rewrite sequence, each step consuming the
output of the previous one, in the declared order. -/
def cleanup (s : List Char) : List Char :=
  r8 (r7b (r7a (r6b (r6a (r5 (r4 (r3 (r2h (r2g (r2f (r2e (r2d (r2c (r2b (r2a (r1 s))))))))))))))))

/-- The rewrite steps of lines 10-67 as a list, in the declared order. -/
def rules : List (List Char → List Char) :=
  [r1, r2a, r2b, r2c, r2d, r2e, r2f, r2g, r2h, r3, r4, r5, r6a, r6b, r7a, r7b, r8]

/-- The `re.sub` rules of the script: pattern and replacement, in order. -/
def ruleSubs : List (List RItem × List Char) :=
  [(p2a, []), (p2b, []), (p2c, []), (p2d, []), (p2e, []), (p2f, []), (p2g, []),
   (p2h, []), (p3, []), (oldExtractOdds, newExtractOdds), (p7b, []), (p8, [])]

/-- The `str.replace` rules of the script: literal and replacement, in order. -/
def ruleReplaces : List (List Char × List Char) :=
  [(importLine, []), (usingHardcoded, []), (removedUnused, []), (toastComment, []),
   (reloadKeyDecl, [])]

/-! ### Basic properties of the embedded engine -/

theorem litPrefix_append (l s : List Char) : litPrefix l (l ++ s) = some s := by
  induction l with
  | nil => rfl
  | cons c l ih => simp [litPrefix, ih]

theorem litPrefix_eq_some (pat : List Char) :
    ∀ u v : List Char, litPrefix pat u = some v → u = pat ++ v := by
  induction pat with
  | nil => intro u v h; simp [litPrefix] at h; simp [h]
  | cons c l ih =>
    intro u v h
    cases u with
    | nil => simp [litPrefix] at h
    | cons d u' =>
      by_cases hcd : c = d
      · subst hcd
        simp only [litPrefix, if_pos rfl] at h
        simp [ih u' v h]
      · simp [litPrefix, hcd] at h

theorem litPrefix_isSome_iff (pat u : List Char) :
    (litPrefix pat u).isSome = true ↔ ∃ v, u = pat ++ v := by
  constructor
  · intro h
    cases hl : litPrefix pat u with
    | none => rw [hl] at h; simp at h
    | some v => exact ⟨v, litPrefix_eq_some pat u v hl⟩
  · rintro ⟨v, rfl⟩
    rw [litPrefix_append]
    rfl

theorem litPrefix_length (pat u v : List Char) (h : litPrefix pat u = some v) :
    u.length = pat.length + v.length := by
  rw [litPrefix_eq_some pat u v h, List.length_append]

theorem containsLit_false_head {pat s : List Char} (h : containsLit pat s = false) :
    litPrefix pat s = none := by
  cases s with
  | nil =>
    simp only [containsLit] at h
    cases hl : litPrefix pat [] with
    | none => rfl
    | some v => rw [hl] at h; simp at h
  | cons c s' =>
    simp only [containsLit, Bool.or_eq_false_iff] at h
    cases hl : litPrefix pat (c :: s') with
    | none => rfl
    | some v => rw [hl] at h; simp at h

theorem containsLit_false_tail {pat : List Char} {c : Char} {s : List Char}
    (h : containsLit pat (c :: s) = false) : containsLit pat s = false := by
  simp only [containsLit, Bool.or_eq_false_iff] at h
  exact h.2

theorem containsLit_drop {pat : List Char} :
    ∀ {s : List Char} {j : Nat}, (litPrefix pat (s.drop j)).isSome = true →
      containsLit pat s = true := by
  intro s
  induction s with
  | nil =>
    intro j h
    simp only [List.drop_nil] at h
    simp [containsLit, h]
  | cons c s ih =>
    intro j h
    cases j with
    | zero =>
      simp only [List.drop] at h
      simp [containsLit, h]
    | succ j =>
      simp only [List.drop] at h
      simp [containsLit, ih h]

theorem containsLit_nonempty {pat s : List Char} (h : containsLit pat s = false) :
    pat.isEmpty = false := by
  cases pat with
  | nil => have := containsLit_false_head h; simp [litPrefix] at this
  | cons c l => rfl

/-! ### No-occurrence rules are no-ops -/

theorem replaceAllF_id {pat repl : List Char} :
    ∀ (f : Nat) (s : List Char), containsLit pat s = false → replaceAllF pat repl f s = s := by
  intro f
  induction f with
  | zero => intro s _; rfl
  | succ f ih =>
    intro s h
    have hne : pat.isEmpty = false := containsLit_nonempty h
    cases s with
    | nil => simp [replaceAllF, hne]
    | cons c s' =>
      have hl : litPrefix pat (c :: s') = none := containsLit_false_head h
      simp [replaceAllF, hne, hl, ih s' (containsLit_false_tail h)]

theorem replaceAll_id {pat repl s : List Char} (h : containsLit pat s = false) :
    replaceAll pat repl s = s :=
  replaceAllF_id _ _ h

theorem anyMatch_false_head {p : List RItem} {s : List Char} (h : anyMatch p s = false) :
    matchItems p s = none := by
  cases s with
  | nil =>
    simp only [anyMatch] at h
    cases hm : matchItems p [] with
    | none => rfl
    | some r => rw [hm] at h; simp at h
  | cons c s' =>
    simp only [anyMatch, Bool.or_eq_false_iff] at h
    cases hm : matchItems p (c :: s') with
    | none => rfl
    | some r => have h1 := h.1; rw [hm] at h1; simp at h1

theorem anyMatch_false_tail {p : List RItem} {c : Char} {s : List Char}
    (h : anyMatch p (c :: s) = false) : anyMatch p s = false := by
  simp only [anyMatch, Bool.or_eq_false_iff] at h
  exact h.2

theorem subAllF_id {p : List RItem} {repl : List Char} :
    ∀ (f : Nat) (s : List Char), anyMatch p s = false → subAllF p repl f s = (s, 0) := by
  intro f
  induction f with
  | zero => intro s _; rfl
  | succ f ih =>
    intro s h
    have hm : matchItems p s = none := anyMatch_false_head h
    cases s with
    | nil => simp [subAllF, hm]
    | cons c s' => simp [subAllF, hm, ih s' (anyMatch_false_tail h)]

theorem subAll_id {p : List RItem} {repl s : List Char} (h : anyMatch p s = false) :
    subAll p repl s = (s, 0) :=
  subAllF_id _ _ h

/-! ### Fuel adequacy: any fuel above the text length gives the same result -/

theorem subAllF_fuel {p : List RItem} {repl : List Char} :
    ∀ (f₁ : Nat) (f₂ : Nat) (s : List Char), s.length < f₁ → s.length < f₂ →
      subAllF p repl f₁ s = subAllF p repl f₂ s := by
  intro f₁
  induction f₁ with
  | zero => intro f₂ s h₁ _; omega
  | succ f ih =>
    intro f₂ s h₁ h₂
    cases f₂ with
    | zero => omega
    | succ f₂' =>
      cases hm : matchItems p s with
      | none =>
        cases s with
        | nil => rfl
        | cons c s' =>
          simp only [List.length_cons] at h₁ h₂
          simp [subAllF, hm, ih f₂' s' (by omega) (by omega)]
      | some r =>
        by_cases hr : r.length < s.length
        · simp [subAllF, hm, hr, ih f₂' r (by omega) (by omega)]
        · cases s with
          | nil => simp [subAllF, hm, hr]
          | cons c s' =>
            simp only [List.length_cons] at h₁ h₂ hr
            simp [subAllF, hm, hr, ih f₂' s' (by omega) (by omega)]

theorem replaceAllF_fuel {pat repl : List Char} :
    ∀ (f₁ : Nat) (f₂ : Nat) (s : List Char), s.length < f₁ → s.length < f₂ →
      replaceAllF pat repl f₁ s = replaceAllF pat repl f₂ s := by
  intro f₁
  induction f₁ with
  | zero => intro f₂ s h₁ _; omega
  | succ f ih =>
    intro f₂ s h₁ h₂
    cases f₂ with
    | zero => omega
    | succ f₂' =>
      cases s with
      | nil => rfl
      | cons c s' =>
        simp only [List.length_cons] at h₁ h₂
        by_cases he : pat.isEmpty
        · simp [replaceAllF, he, ih f₂' s' (by omega) (by omega)]
        · cases hl : litPrefix pat (c :: s') with
          | none => simp [replaceAllF, he, hl, ih f₂' s' (by omega) (by omega)]
          | some u =>
            have hlen := litPrefix_length pat (c :: s') u hl
            have hpat : 1 ≤ pat.length := by
              cases pat with
              | nil => simp at he
              | cons d l => simp
            simp only [List.length_cons] at hlen
            simp [replaceAllF, he, hl, ih f₂' u (by omega) (by omega)]

/-! ### Deletion rules never lengthen the buffer -/

theorem subAllF_length_le {p : List RItem} :
    ∀ (f : Nat) (s : List Char), (subAllF p [] f s).1.length ≤ s.length := by
  intro f
  induction f with
  | zero => intro s; exact Nat.le_refl _
  | succ f ih =>
    intro s
    cases hm : matchItems p s with
    | none =>
      cases s with
      | nil => simp [subAllF, hm]
      | cons c s' =>
        simp only [subAllF, hm, List.length_cons]
        simpa using ih s'
    | some r =>
      by_cases hr : r.length < s.length
      · simp only [subAllF, hm, if_pos hr]
        simpa using Nat.le_trans (ih r) (Nat.le_of_lt hr)
      · cases s with
        | nil => simp [subAllF, hm, hr]
        | cons c s' =>
          simp only [List.length_cons] at hr
          simp only [subAllF, hm, List.length_cons, if_neg hr, List.nil_append]
          simpa using ih s'

theorem subAll_length_le (p : List RItem) (s : List Char) :
    (subAll p [] s).1.length ≤ s.length :=
  subAllF_length_le _ s

theorem replaceAllF_length_le {pat : List Char} :
    ∀ (f : Nat) (s : List Char), (replaceAllF pat [] f s).length ≤ s.length := by
  intro f
  induction f with
  | zero => intro s; exact Nat.le_refl _
  | succ f ih =>
    intro s
    cases s with
    | nil =>
      by_cases he : pat.isEmpty
      · simp [replaceAllF, he]
      · simp [replaceAllF, he]
    | cons c s' =>
      by_cases he : pat.isEmpty
      · simp only [replaceAllF, if_pos he, List.nil_append, List.length_cons]
        exact Nat.succ_le_succ (ih s')
      · cases hl : litPrefix pat (c :: s') with
        | none =>
          simp only [replaceAllF, if_neg he, hl, List.length_cons]
          simpa using ih s'
        | some u =>
          have hlen := litPrefix_length pat (c :: s') u hl
          have hpat : 1 ≤ pat.length := by
            cases pat with
            | nil => simp at he
            | cons d l => simp
          simp only [List.length_cons] at hlen
          simp only [replaceAllF, if_neg he, hl, List.nil_append, List.length_cons]
          exact Nat.le_trans (ih u) (by omega)

theorem replaceAll_length_le (pat : List Char) (s : List Char) :
    (replaceAll pat [] s).length ≤ s.length :=
  replaceAllF_length_le _ s

/-- `str.replace` consumes a leading occurrence of the pattern and keeps
replacing in the rest: it is not limited to the first occurrence. -/
theorem replaceAll_head_match {pat repl x : List Char} (h : pat ≠ []) :
    replaceAll pat repl (pat ++ x) = repl ++ replaceAll pat repl x := by
  cases pat with
  | nil => exact absurd rfl h
  | cons c l =>
    have hlp : litPrefix (c :: l) ((c :: l) ++ x) = some x := litPrefix_append (c :: l) x
    show replaceAllF (c :: l) repl (((c :: l) ++ x).length + 1) ((c :: l) ++ x) =
      repl ++ replaceAllF (c :: l) repl (x.length + 1) x
    rw [List.cons_append] at hlp
    rw [List.cons_append]
    simp only [List.length_cons, List.length_append]
    simp [replaceAllF, hlp,
      replaceAllF_fuel (l.length + x.length + 1) (x.length + 1) x (by omega) (by omega)]

/-! ### List bookkeeping for the overlap argument -/

theorem take_append_of_le {α : Type} :
    ∀ (l t : List α) (n : Nat), n ≤ l.length → (l ++ t).take n = l.take n := by
  intro l
  induction l with
  | nil =>
    intro t n h
    have : n = 0 := Nat.le_zero.mp h
    simp [this]
  | cons c l ih =>
    intro t n h
    cases n with
    | zero => rfl
    | succ m =>
      simp only [List.cons_append, List.take_succ_cons]
      rw [ih t m (by simpa using h)]

theorem drop_append_of_le {α : Type} :
    ∀ (l t : List α) (n : Nat), n ≤ l.length → (l ++ t).drop n = l.drop n ++ t := by
  intro l
  induction l with
  | nil =>
    intro t n h
    have : n = 0 := Nat.le_zero.mp h
    simp [this]
  | cons c l ih =>
    intro t n h
    cases n with
    | zero => rfl
    | succ m =>
      simp only [List.cons_append, List.drop_succ_cons]
      exact ih t m (by simpa using h)

theorem take_append_add {α : Type} :
    ∀ (l t : List α) (m : Nat), (l ++ t).take (l.length + m) = l ++ t.take m := by
  intro l
  induction l with
  | nil => intro t m; simp
  | cons c l ih =>
    intro t m
    rw [show (c :: l).length + m = (l.length + m) + 1 by simp [List.length_cons]; omega]
    simp only [List.cons_append, List.take_succ_cons]
    rw [ih t m]

theorem take_dropLast {α : Type} (l : List α) (m : Nat) (h : m ≤ l.length - 1) :
    l.dropLast.take m = l.take m := by
  rw [List.dropLast_eq_take, List.take_take, Nat.min_eq_left h]

/-- If a text of the form `a ++ pat ++ x` (with `a` nonempty) starts with
`pat`, then `a ++ pat.dropLast` also starts with `pat`: an occurrence of
`pat` beginning strictly before a later full occurrence is contained in the
text that ends one character before that later occurrence ends. -/
theorem prefix_overlap {pat a x : List Char} (ha : a ≠ [])
    (h : ∃ v, a ++ (pat ++ x) = pat ++ v) : ∃ w, a ++ pat.dropLast = pat ++ w := by
  rcases h with ⟨v, hv⟩
  by_cases hp : pat.length ≤ a.length
  · have h1 : (a ++ (pat ++ x)).take pat.length = a.take pat.length :=
      take_append_of_le _ _ _ hp
    have h2 : (pat ++ v).take pat.length = pat := by
      rw [take_append_of_le pat v _ (Nat.le_refl _), List.take_length]
    have hpa : a.take pat.length = pat := by rw [← h1, hv, h2]
    refine ⟨a.drop pat.length ++ pat.dropLast, ?_⟩
    calc a ++ pat.dropLast
        = (a.take pat.length ++ a.drop pat.length) ++ pat.dropLast := by
          rw [List.take_append_drop]
      _ = pat ++ (a.drop pat.length ++ pat.dropLast) := by
          rw [hpa, List.append_assoc]
  · push_neg at hp
    have ha1 : 1 ≤ a.length := by
      cases a with
      | nil => exact absurd rfl ha
      | cons c l => simp
    have hma : a.length + (pat.length - a.length) = pat.length := by omega
    have h1 : (a ++ (pat ++ x)).take (a.length + (pat.length - a.length)) =
        a ++ (pat ++ x).take (pat.length - a.length) := take_append_add _ _ _
    have h2 : (pat ++ x).take (pat.length - a.length) = pat.take (pat.length - a.length) :=
      take_append_of_le pat x _ (by omega)
    have h3 : (pat ++ v).take (a.length + (pat.length - a.length)) = pat := by
      rw [hma, take_append_of_le pat v _ (Nat.le_refl _), List.take_length]
    have hpa : a ++ pat.take (pat.length - a.length) = pat := by
      have e1 : (a ++ (pat ++ x)).take (a.length + (pat.length - a.length)) =
          (pat ++ v).take (a.length + (pat.length - a.length)) := by rw [hv]
      rw [h1, h2, h3] at e1
      exact e1
    have hmlt : pat.length - a.length ≤ pat.length - 1 := by omega
    refine ⟨pat.dropLast.drop (pat.length - a.length), ?_⟩
    calc a ++ pat.dropLast
        = a ++ (pat.dropLast.take (pat.length - a.length) ++
            pat.dropLast.drop (pat.length - a.length)) := by
          rw [List.take_append_drop]
      _ = a ++ (pat.take (pat.length - a.length) ++
            pat.dropLast.drop (pat.length - a.length)) := by
          rw [take_dropLast pat _ hmlt]
      _ = (a ++ pat.take (pat.length - a.length)) ++
            pat.dropLast.drop (pat.length - a.length) := by
          rw [List.append_assoc]
      _ = pat ++ pat.dropLast.drop (pat.length - a.length) := by rw [hpa]

/-- When `pat` does not occur in `g ++ pat.dropLast`, it cannot match at any
position strictly inside `g` of the text `g ++ pat ++ y`: the first match of
`pat` in that text starts exactly at the end of `g`. -/
theorem litPrefix_none_before {pat g y : List Char}
    (h : containsLit pat (g ++ pat.dropLast) = false) :
    ∀ j, j < g.length → litPrefix pat (g.drop j ++ (pat ++ y)) = none := by
  intro j hj
  cases hl : litPrefix pat (g.drop j ++ (pat ++ y)) with
  | none => rfl
  | some v =>
    exfalso
    have hv := litPrefix_eq_some _ _ _ hl
    have hne : g.drop j ≠ [] := by
      intro h0
      have hlen : (g.drop j).length = g.length - j := List.length_drop _ _
      rw [h0] at hlen
      simp at hlen
      omega
    have hov := prefix_overlap hne ⟨v, hv⟩
    have hsome : (litPrefix pat ((g ++ pat.dropLast).drop j)).isSome = true := by
      rw [drop_append_of_le g _ j (Nat.le_of_lt hj)]
      exact (litPrefix_isSome_iff _ _).mpr hov
    rw [containsLit_drop hsome] at h
    exact Bool.noConfusion h

/-! ### The lazy star stops at the nearest position where the rest matches -/

theorem lazyRun_some {d : Bool} {k : List Char → Option (List Char)} {s r : List Char}
    (h : k s = some r) : lazyRun d k s = some r := by
  cases s with
  | nil => simpa [lazyRun] using h
  | cons c s' => simp [lazyRun, h]

theorem lazyRun_append_none {k : List Char → Option (List Char)} :
    ∀ (g s : List Char), (∀ j, j < g.length → k (g.drop j ++ s) = none) →
      lazyRun true k (g ++ s) = lazyRun true k s := by
  intro g
  induction g with
  | nil => intro s _; rfl
  | cons c g' ih =>
    intro s hk
    have h0 : k (c :: (g' ++ s)) = none := by
      have := hk 0 (by simp)
      simpa using this
    show (match k (c :: (g' ++ s)) with
      | some r => some r
      | none => if true || !(c == '\n') then lazyRun true k (g' ++ s) else none) =
      lazyRun true k s
    rw [h0]
    exact ih s (fun j hj => by
      have := hk (j + 1) (by simpa using Nat.succ_lt_succ hj)
      simpa using this)

theorem lazyRun_min {k : List Char → Option (List Char)} :
    ∀ (s r : List Char), lazyRun true k s = some r →
      ∃ j, (∀ i, i < j → k (s.drop i) = none) ∧ k (s.drop j) = some r := by
  intro s
  induction s with
  | nil =>
    intro r h
    exact ⟨0, fun i hi => absurd hi (Nat.not_lt_zero i), by simpa [lazyRun] using h⟩
  | cons c s' ih =>
    intro r h
    cases hk : k (c :: s') with
    | some r' =>
      refine ⟨0, fun i hi => absurd hi (Nat.not_lt_zero i), ?_⟩
      show k ((c :: s').drop 0) = some r
      rw [List.drop_zero, hk]
      exact (lazyRun_some hk).symm.trans h
    | none =>
      have h' : lazyRun true k s' = some r := by simpa [lazyRun, hk] using h
      obtain ⟨j, hj1, hj2⟩ := ih r h'
      refine ⟨j + 1, fun i hi => ?_, by simpa using hj2⟩
      cases i with
      | zero => simpa using hk
      | succ i' => simpa using hj1 i' (by omega)

/-! ### Stepping the matcher through literals and whitespace glue -/

theorem matchItems_lit_cons {l : List Char} {rest : List RItem} {s : List Char} :
    matchItems (RItem.lit l :: rest) (l ++ s) = matchItems rest s := by
  simp [matchItems, litPrefix_append]

theorem matchItems_lit_none {l : List Char} {rest : List RItem} {u : List Char}
    (h : litPrefix l u = none) : matchItems (RItem.lit l :: rest) u = none := by
  simp [matchItems, h]

theorem greedyRun_no_space {k : List Char → Option (List Char)} {c : Char} {u : List Char}
    (h : pyIsSpace c = false) : greedyRun k (c :: u) = k (c :: u) := by
  simp [greedyRun, h]

theorem ws_nl_step {rest : List RItem} {c0 : Char} {u : List Char}
    (h : pyIsSpace c0 = false) :
    matchItems (RItem.wsGreedy :: RItem.lit ['\n'] :: rest) ('\n' :: c0 :: u) =
      matchItems rest (c0 :: u) := by
  have hc0 : c0 ≠ '\n' := by
    intro he
    have hnl : pyIsSpace '\n' = true := by decide
    rw [he, hnl] at h
    exact Bool.noConfusion h
  have hlp : litPrefix ['\n'] (c0 :: u) = none := by
    simp only [litPrefix]
    rw [if_neg (fun hh => hc0 hh.symm)]
  have hk1 : matchItems (RItem.lit ['\n'] :: rest) (c0 :: u) = none :=
    matchItems_lit_none hlp
  show greedyRun (fun t => matchItems (RItem.lit ['\n'] :: rest) t) ('\n' :: c0 :: u) =
    matchItems rest (c0 :: u)
  have hnl : pyIsSpace '\n' = true := by decide
  rw [greedyRun, if_pos hnl, greedyRun_no_space h]
  show (match matchItems (RItem.lit ['\n'] :: rest) (c0 :: u) with
    | some r => some r
    | none => matchItems (RItem.lit ['\n'] :: rest) ('\n' :: c0 :: u)) =
    matchItems rest (c0 :: u)
  rw [hk1]
  show (match litPrefix ['\n'] ('\n' :: c0 :: u) with
    | some s' => matchItems rest s'
    | none => none) = matchItems rest (c0 :: u)
  rw [show litPrefix ['\n'] ('\n' :: c0 :: u) = some (c0 :: u) from by simp [litPrefix]]

/-- Shape of the line-18 rule: `literal` `.*?` `terminator` `.*?` `terminator`
(both stars DOTALL-lazy).  When neither gap contains the terminator, the match
consumes exactly up to the second terminator and leaves `tail` — even when
`tail` contains further terminators. -/
theorem lazy2_shape {a b c g1 g2 tail : List Char}
    (hb : containsLit b (g1 ++ b.dropLast) = false)
    (hc : containsLit c (g2 ++ c.dropLast) = false) :
    matchItems [RItem.lit a, RItem.anyLazy true, RItem.lit b, RItem.anyLazy true, RItem.lit c]
      (a ++ (g1 ++ (b ++ (g2 ++ (c ++ tail))))) = some tail := by
  rw [matchItems_lit_cons]
  show lazyRun true (fun t => matchItems [RItem.lit b, RItem.anyLazy true, RItem.lit c] t)
    (g1 ++ (b ++ (g2 ++ (c ++ tail)))) = some tail
  rw [lazyRun_append_none g1 _
    (fun j hj => matchItems_lit_none (litPrefix_none_before hb j hj))]
  apply lazyRun_some
  show matchItems (RItem.lit b :: [RItem.anyLazy true, RItem.lit c]) (b ++ (g2 ++ (c ++ tail))) =
    some tail
  rw [matchItems_lit_cons]
  show lazyRun true (fun t => matchItems [RItem.lit c] t) (g2 ++ (c ++ tail)) = some tail
  rw [lazyRun_append_none g2 _
    (fun j hj => matchItems_lit_none (litPrefix_none_before hc j hj))]
  apply lazyRun_some
  show matchItems (RItem.lit c :: []) (c ++ tail) = some tail
  rw [matchItems_lit_cons]
  rfl

/-- Shape of the line-35 rule: `literal` `\s*` `\n` `\s*` `literal` `[\s\S]*?`
`terminator` `\s*` `\n` `\s*` `literal`, instantiated at a text where the
whitespace glue is a single newline.  When the gap does not contain the
`return \'\';` terminator, the lazy star stops at it and the match leaves
exactly `tail`. -/
theorem lazy_ws_shape {a brest g ret crest tail : List Char} {b0 c0 : Char}
    (hb : pyIsSpace b0 = false) (hc : pyIsSpace c0 = false)
    (hg : containsLit ret (g ++ ret.dropLast) = false) :
    matchItems [RItem.lit a, RItem.wsGreedy, RItem.lit ['\n'], RItem.wsGreedy,
        RItem.lit (b0 :: brest), RItem.anyLazy true, RItem.lit ret, RItem.wsGreedy,
        RItem.lit ['\n'], RItem.wsGreedy, RItem.lit (c0 :: crest)]
      (a ++ ('\n' :: ((b0 :: brest) ++ (g ++ (ret ++ ('\n' :: ((c0 :: crest) ++ tail))))))) =
      some tail := by
  rw [matchItems_lit_cons]
  rw [List.cons_append]
  rw [ws_nl_step hb]
  show greedyRun (fun t => matchItems (RItem.lit (b0 :: brest) :: [RItem.anyLazy true,
      RItem.lit ret, RItem.wsGreedy, RItem.lit ['\n'], RItem.wsGreedy,
      RItem.lit (c0 :: crest)]) t)
    (b0 :: (brest ++ (g ++ (ret ++ ('\n' :: ((c0 :: crest) ++ tail)))))) = some tail
  rw [greedyRun_no_space hb]
  show matchItems (RItem.lit (b0 :: brest) :: [RItem.anyLazy true, RItem.lit ret,
      RItem.wsGreedy, RItem.lit ['\n'], RItem.wsGreedy, RItem.lit (c0 :: crest)])
    ((b0 :: brest) ++ (g ++ (ret ++ ('\n' :: ((c0 :: crest) ++ tail))))) = some tail
  rw [matchItems_lit_cons]
  show lazyRun true (fun t => matchItems [RItem.lit ret, RItem.wsGreedy, RItem.lit ['\n'],
      RItem.wsGreedy, RItem.lit (c0 :: crest)] t)
    (g ++ (ret ++ ('\n' :: ((c0 :: crest) ++ tail)))) = some tail
  rw [lazyRun_append_none g _
    (fun j hj => matchItems_lit_none (litPrefix_none_before hg j hj))]
  apply lazyRun_some
  show matchItems (RItem.lit ret :: [RItem.wsGreedy, RItem.lit ['\n'], RItem.wsGreedy,
      RItem.lit (c0 :: crest)]) (ret ++ ('\n' :: ((c0 :: crest) ++ tail))) = some tail
  rw [matchItems_lit_cons]
  rw [List.cons_append]
  rw [ws_nl_step hc]
  show greedyRun (fun t => matchItems (RItem.lit (c0 :: crest) :: []) t)
    (c0 :: (crest ++ tail)) = some tail
  rw [greedyRun_no_space hc]
  show matchItems (RItem.lit (c0 :: crest) :: []) ((c0 :: crest) ++ tail) = some tail
  rw [matchItems_lit_cons]
  rfl

/-! ### The replacement-template processing CPython applies at run time

`re.sub` parses a replacement string that contains a backslash before any
text is scanned (Modules/_sre: the template is compiled before the match
loop).  In the parse, `\a \b \f \n \r \t \v \\` are escapes, a backslash
before any other ASCII letter is an error (`bad escape`), and a backslash
before a non-letter is kept as the two characters.  Group references (`\g`,
`\1`, …) are outside the modelled fragment and rejected; the script's one
backslash-carrying template contains none. -/
def templEscape (c : Char) : Option Char :=
  if c = 'a' then some '\x07'
  else if c = 'b' then some '\x08'
  else if c = 'f' then some '\x0c'
  else if c = 'n' then some '\n'
  else if c = 'r' then some '\r'
  else if c = 't' then some '\t'
  else if c = 'v' then some '\x0b'
  else if c = '\\' then some '\\'
  else none

/-- Is the character an ASCII letter (the class whose unknown escapes CPython
rejects in a replacement template)? -/
def isAsciiLetter (c : Char) : Bool :=
  ('a' ≤ c && c ≤ 'z') || ('A' ≤ c && c ≤ 'Z')

/-- CPython `sre_parse.parse_template` on the fragment the script uses. -/
def parseTemplate : List Char → Except String (List Char)
  | [] => Except.ok []
  | '\\' :: [] => Except.error "bad escape (end of pattern)"
  | '\\' :: c :: rest =>
    match templEscape c with
    | some e => (parseTemplate rest).map (fun t => e :: t)
    | none =>
      if isAsciiLetter c then Except.error ("bad escape \\" ++ c.toString)
      else if c.isDigit || c = 'g' then Except.error "group reference (outside the modelled fragment)"
      else (parseTemplate rest).map (fun t => '\\' :: c :: t)
  | c :: rest => (parseTemplate rest).map (fun t => c :: t)

/-- `re.sub` as CPython ≥ 3.7 executes it: when the replacement contains a
backslash the template is parsed first, and a bad escape raises before any
text is touched; otherwise the replacement is inserted literally. -/
def pySub (p : List RItem) (repl : List Char) (s : List Char) : Except String (List Char) :=
  if repl.contains '\\' then
    match parseTemplate repl with
    | Except.error e => Except.error e
    | Except.ok t => Except.ok (subAll p t s).1
  else Except.ok (subAll p repl s).1

/-- The whole script run under CPython ≥ 3.7 semantics: every `re.sub` step
goes through `pySub`; `str.replace` steps cannot fail. -/
def cleanupE (s : List Char) : Except String (List Char) :=
  (pySub p2a [] (r1 s)).bind fun c2a =>
  (pySub p2b [] c2a).bind fun c2b =>
  (pySub p2c [] c2b).bind fun c2c =>
  (pySub p2d [] c2c).bind fun c2d =>
  (pySub p2e [] c2d).bind fun c2e =>
  (pySub p2f [] c2e).bind fun c2f =>
  (pySub p2g [] c2f).bind fun c2g =>
  (pySub p2h [] c2g).bind fun c2h =>
  (pySub p3 [] c2h).bind fun c3 =>
  (pySub oldExtractOdds newExtractOdds (r4 c3)).bind fun c5 =>
  (pySub p7b [] (r7a (r6b (r6a c5)))).bind fun c7b =>
  (pySub p8 [] c7b).bind fun c8v =>
  Except.ok c8v

/-! ### The pipeline abstraction of the specification (registration phase)

Modelled from the spec: the script itself has no registration phase — its
patterns are compiled inside each `re.sub` call — so `addRule`,
`InvalidPattern`, `DuplicateRuleName` and the build-then-run pipeline below
follow the specification's words (sections 4.1 and 7). -/
structure SpecRule where
  name : String
  matcher : String
  replacement : String

/-- Modelled from the spec: compile a matcher written in the concrete syntax
of the fragment (plain characters are literals, `\` escapes one character,
`\s*` is the greedy whitespace star, `.*?` is the lazy any star); a dangling
quantifier, a bare `.` or `?`, or a trailing backslash is malformed. -/
def compileMatcher : List Char → Option (List RItem)
  | [] => some []
  | '\\' :: 's' :: '*' :: rest => (compileMatcher rest).map (fun p => RItem.wsGreedy :: p)
  | '\\' :: [] => none
  | '\\' :: c :: rest =>
    if c = 's' then none
    else (compileMatcher rest).map (fun p => RItem.lit [c] :: p)
  | '.' :: '*' :: '?' :: rest => (compileMatcher rest).map (fun p => RItem.anyLazy true :: p)
  | '*' :: _ => none
  | '?' :: _ => none
  | '.' :: _ => none
  | c :: rest => (compileMatcher rest).map (fun p => RItem.lit [c] :: p)

/-- Modelled from the spec: `addRule` appends a compiled rule; it fails with
`InvalidPattern` when the matcher does not compile, and with
`DuplicateRuleName` when the name is already registered. -/
def addRule (acc : List (String × List RItem × String)) (r : SpecRule) :
    Except String (List (String × List RItem × String)) :=
  match compileMatcher r.matcher.data with
  | none => Except.error "InvalidPattern"
  | some p =>
    if acc.any (fun q => q.1 == r.name) then Except.error "DuplicateRuleName"
    else Except.ok (acc ++ [(r.name, p, r.replacement)])

/-- Registration loop: add the rules one by one, stopping at the first
registration error. -/
def buildPipelineAux (acc : List (String × List RItem × String)) :
    List SpecRule → Except String (List (String × List RItem × String))
  | [] => Except.ok acc
  | r :: rest =>
    match addRule acc r with
    | Except.error e => Except.error e
    | Except.ok acc' => buildPipelineAux acc' rest

/-- Modelled from the spec: a pipeline is built once from the full rule list
before any text is touched. -/
def buildPipeline (rs : List SpecRule) :
    Except String (List (String × List RItem × String)) :=
  buildPipelineAux [] rs

/-- Modelled from the spec: `run` applies the compiled rules in order to a
buffer seeded with the input; if the build failed, no rule is applied and no
buffer is produced, so the output can never be a partially rewritten text. -/
def runPipeline (rs : List SpecRule) (input : List Char) : Except String (List Char) :=
  match buildPipeline rs with
  | Except.error e => Except.error e
  | Except.ok compiled =>
    Except.ok (compiled.foldl (fun b q => (subAll q.2.1 q.2.2.data b).1) input)

/-! ### The claims -/

set_option maxRecDepth 1000000

/-- Claim C1 counterexample input: the BetCard-import literal spliced into
itself right after its first character. -/
def c1x : List Char :=
  'i' :: (importLine ++ ("mport \x7b BetCard \x7d from \x27./BetCard\x27;\n").data)

/-- Claim C1, counterexample: the pipeline is not idempotent.  On `c1x` the
first run deletes the spliced inner copy of the import literal, and the two
remaining fragments join into a fresh copy of that literal, which only the
second run deletes: `run(run(c1x)) ≠ run(c1x)`. -/
theorem c1_counterexample : cleanup (cleanup c1x) ≠ cleanup c1x := by decide

/-- Claim C1 (amended): the replacement text installed by the
`extractOddsFromAnalysis` rewrite re-matches the pattern that produced it and
is a fixed point of that rule — applying rule 5 to its own replacement text
yields the same text again, with exactly one substitution reported.  The full
pipeline, however, is not idempotent: a deletion rule can create a fresh
occurrence of its own matcher by joining the fragments around a deleted
occurrence (see the counterexample). -/
theorem c1_extract_odds_fixed_point :
    subAll oldExtractOdds newExtractOdds newExtractOdds = (newExtractOdds, 1) ∧
    r5 newExtractOdds = newExtractOdds := by
  have h : subAll oldExtractOdds newExtractOdds newExtractOdds = (newExtractOdds, 1) := by
    decide
  exact ⟨h, by simp [r5, h]⟩

/-- Claim C2 counterexample input: two adjacent copies of the import line
followed by ordinary code. -/
def c2dup : List Char := importLine ++ (importLine ++ ("const a = 1;\n").data)

/-- Claim C2, counterexample: the claim predicts that after the first
occurrence of the BetCard-import literal is replaced, further occurrences
remain in the output buffer; in fact the pipeline removes every occurrence,
and no copy of the literal survives in `run(c2dup)`. -/
theorem c2_counterexample :
    containsLit importLine (cleanup c2dup) = false ∧
    cleanup c2dup = ("const a = 1;\n").data := by
  decide

/-- Claim C2 (amended): the `removeImportBetCard` rule is implemented with
`str.replace`, which replaces every occurrence found in a single
left-to-right scan — not at most the first: prepending two copies of the
BetCard line to any text removes both of them. -/
theorem c2_replace_removes_every_occurrence (w : List Char) :
    r1 (importLine ++ (importLine ++ w)) = r1 w := by
  have hne : importLine ≠ [] := by decide
  show replaceAll importLine [] (importLine ++ (importLine ++ w)) =
    replaceAll importLine [] w
  rw [replaceAll_head_match hne, replaceAll_head_match hne]
  simp

/-- Claim C3: no-op safety — when none of the seventeen matchers occurs in
the input, the whole pipeline returns the input unchanged, and every rule
individually leaves the buffer unchanged. -/
theorem c3_noop_safety (s : List Char)
    (h1 : containsLit importLine s = false)
    (h2 : anyMatch p2a s = false) (h3 : anyMatch p2b s = false)
    (h4 : anyMatch p2c s = false) (h5 : anyMatch p2d s = false)
    (h6 : anyMatch p2e s = false) (h7 : anyMatch p2f s = false)
    (h8 : anyMatch p2g s = false) (h9 : anyMatch p2h s = false)
    (h10 : anyMatch p3 s = false) (h11 : containsLit usingHardcoded s = false)
    (h12 : anyMatch oldExtractOdds s = false)
    (h13 : containsLit removedUnused s = false)
    (h14 : containsLit toastComment s = false)
    (h15 : containsLit reloadKeyDecl s = false)
    (h16 : anyMatch p7b s = false) (h17 : anyMatch p8 s = false) :
    cleanup s = s ∧
    r1 s = s ∧ r2a s = s ∧ r2b s = s ∧ r2c s = s ∧ r2d s = s ∧ r2e s = s ∧
    r2f s = s ∧ r2g s = s ∧ r2h s = s ∧ r3 s = s ∧ r4 s = s ∧ r5 s = s ∧
    r6a s = s ∧ r6b s = s ∧ r7a s = s ∧ r7b s = s ∧ r8 s = s := by
  have e1 : r1 s = s := replaceAll_id h1
  have e2a : r2a s = s := by simp [r2a, subAll_id h2]
  have e2b : r2b s = s := by simp [r2b, subAll_id h3]
  have e2c : r2c s = s := by simp [r2c, subAll_id h4]
  have e2d : r2d s = s := by simp [r2d, subAll_id h5]
  have e2e : r2e s = s := by simp [r2e, subAll_id h6]
  have e2f : r2f s = s := by simp [r2f, subAll_id h7]
  have e2g : r2g s = s := by simp [r2g, subAll_id h8]
  have e2h : r2h s = s := by simp [r2h, subAll_id h9]
  have e3 : r3 s = s := by simp [r3, subAll_id h10]
  have e4 : r4 s = s := replaceAll_id h11
  have e5 : r5 s = s := by simp [r5, subAll_id h12]
  have e6a : r6a s = s := replaceAll_id h13
  have e6b : r6b s = s := replaceAll_id h14
  have e7a : r7a s = s := replaceAll_id h15
  have e7b : r7b s = s := by simp [r7b, subAll_id h16]
  have e8 : r8 s = s := by simp [r8, subAll_id h17]
  refine ⟨?_, e1, e2a, e2b, e2c, e2d, e2e, e2f, e2g, e2h, e3, e4, e5, e6a, e6b, e7a, e7b, e8⟩
  simp [cleanup, e1, e2a, e2b, e2c, e2d, e2e, e2f, e2g, e2h, e3, e4, e5, e6a, e6b, e7a, e7b, e8]

/-- Claim C3 witness at the concrete text `const a = 1;\n`, in which no
matcher occurs. -/
theorem c3_noop_safety_witness :
    cleanup (("const a = 1;\n").data) = ("const a = 1;\n").data :=
  (c3_noop_safety (("const a = 1;\n").data) (by decide) (by decide) (by decide) (by decide)
    (by decide) (by decide) (by decide) (by decide) (by decide) (by decide) (by decide)
    (by decide) (by decide) (by decide) (by decide) (by decide) (by decide)).1

/-- Claim C4: the pipeline is the left fold of the declared rule list over
the input buffer — each rule consumes exactly the output of the previous
rule, never the original input. -/
theorem c4_run_is_left_fold (s : List Char) :
    cleanup s = rules.foldl (fun buf step => step buf) s := rfl

/-- Claim C5: determinism — the lines 10-67 transformation is a pure
function of the input text, so byte-identical inputs give byte-identical
outputs. -/
theorem c5_determinism (s₁ s₂ : List Char) (h : s₁ = s₂) : cleanup s₁ = cleanup s₂ :=
  congrArg cleanup h

/-- Claim C5 witness at a concrete input. -/
theorem c5_determinism_witness :
    cleanup (("const a = 1;\n").data) = cleanup (("const a = 1;\n").data) :=
  c5_determinism (("const a = 1;\n").data) (("const a = 1;\n").data) rfl

/-- Claim C6: absence of a match is never an error — every `re.sub` rule of
the script applied to a buffer its pattern does not match returns the buffer
unchanged with 0 occurrences, and every `str.replace` rule whose literal does
not occur returns the buffer unchanged; all rule applications are total
functions, so processing always continues with the next rule in sequence. -/
theorem c6_no_match_is_not_error :
    (∀ pr ∈ ruleSubs, ∀ s : List Char, anyMatch pr.1 s = false →
      subAll pr.1 pr.2 s = (s, 0)) ∧
    (∀ lr ∈ ruleReplaces, ∀ s : List Char, containsLit lr.1 s = false →
      replaceAll lr.1 lr.2 s = s) := by
  constructor
  · intro pr _ s h
    exact subAll_id h
  · intro lr _ s h
    exact replaceAll_id h

/-- Claim C6 witness: the first `re.sub` rule and the first `str.replace`
rule at a concrete non-matching text. -/
theorem c6_no_match_is_not_error_witness :
    subAll p2a [] (("abc").data) = (("abc").data, 0) ∧
    replaceAll importLine [] (("abc").data) = ("abc").data :=
  ⟨c6_no_match_is_not_error.1 (p2a, []) (List.Mem.head _) (("abc").data) (by decide),
   c6_no_match_is_not_error.2 (importLine, []) (List.Mem.head _) (("abc").data) (by decide)⟩

/-- Claim C7: lazy (non-greedy) block matching.  (i) The lazy-star engine
used by every DOTALL rule stops at the nearest position at which the rest of
the pattern matches.  (ii) The line-18 rule consumes text exactly up to the
first two `);`-newline terminators and leaves the rest — whatever follows,
and with gaps that may span line boundaries.  (iii) The line-35 rule stops at
the nearest `return \'\';` terminator of the helper-function block.  (iv)
Every lazy star of the multi-line rules at lines 18, 24-29, 35-55, 64 and 67
carries the DOTALL flag, so those matchers match across line boundaries. -/
theorem c7_lazy_block_matching :
    (∀ (k : List Char → Option (List Char)) (s r : List Char),
      lazyRun true k s = some r →
      ∃ j, (∀ i, i < j → k (s.drop i) = none) ∧ k (s.drop j) = some r) ∧
    (∀ g1 g2 tail : List Char,
      containsLit termSemi (g1 ++ termSemi.dropLast) = false →
      containsLit termSemi (g2 ++ termSemi.dropLast) = false →
      matchItems p2e (timeVarLit ++ (g1 ++ (termSemi ++ (g2 ++ (termSemi ++ tail))))) =
        some tail) ∧
    (∀ g tail : List Char,
      containsLit retLit (g ++ retLit.dropLast) = false →
      matchItems oldExtractOdds
        (helperLit ++ ('\n' :: (funcHead ++ (g ++ (retLit ++ ('\n' :: (closeLit ++ tail))))))) =
        some tail) ∧
    ([p2e, p3, oldExtractOdds, p7b, p8].all
      (fun p => p.all (fun i => match i with | RItem.anyLazy d => d | _ => true)) = true) := by
  refine ⟨fun k s r h => lazyRun_min s r h, ?_, ?_, by decide⟩
  · intro g1 g2 tail hb hc
    show matchItems [RItem.lit timeVarLit, RItem.anyLazy true, RItem.lit termSemi,
        RItem.anyLazy true, RItem.lit termSemi]
      (timeVarLit ++ (g1 ++ (termSemi ++ (g2 ++ (termSemi ++ tail))))) = some tail
    exact lazy2_shape hb hc
  · intro g tail hg
    show matchItems [RItem.lit helperLit, RItem.wsGreedy, RItem.lit ['\n'], RItem.wsGreedy,
        RItem.lit funcHead, RItem.anyLazy true, RItem.lit retLit, RItem.wsGreedy,
        RItem.lit ['\n'], RItem.wsGreedy, RItem.lit closeLit]
      (helperLit ++ ('\n' :: (funcHead ++ (g ++ (retLit ++ ('\n' :: (closeLit ++ tail))))))) =
      some tail
    rw [show funcHead = 'c' :: ("onst extractOddsFromAnalysis = (pick) => \x7b").data from rfl,
        show closeLit = '\x7d' :: (";").data from rfl]
    exact lazy_ws_shape (by decide) (by decide) hg

/-- Claim C7 witness: the line-18 rule at gaps `x`, `y` with a tail that
still contains a terminator (the match does not extend to it), the line-35
rule at gap `X`, and the nearest-stop property of the engine at a two
character text. -/
theorem c7_lazy_block_matching_witness :
    matchItems p2e
      (timeVarLit ++ (['x'] ++ (termSemi ++ (['y'] ++ (termSemi ++ (termSemi ++ ['Z'])))))) =
      some (termSemi ++ ['Z']) ∧
    matchItems oldExtractOdds
      (helperLit ++ ('\n' :: (funcHead ++ (['X'] ++ (retLit ++ ('\n' :: (closeLit ++ ['T']))))))) =
      some ['T'] ∧
    (∃ j, (∀ i, i < j → litPrefix ['b'] ((['a', 'b']).drop i) = none) ∧
      litPrefix ['b'] ((['a', 'b']).drop j) = some []) :=
  ⟨c7_lazy_block_matching.2.1 ['x'] ['y'] (termSemi ++ ['Z']) (by decide) (by decide),
   c7_lazy_block_matching.2.2.1 ['X'] ['T'] (by decide),
   c7_lazy_block_matching.1 (fun t => litPrefix ['b'] t) ['a', 'b'] [] (by decide)⟩

/-- Claim C8 (modelled from the spec — the script itself has no registration
phase): whenever any rule's matcher fails to compile, the pipeline build
fails with an error at registration time, and `run` propagates that error
without producing any output buffer, so no rule is applied to the text and a
partially rewritten buffer can never be observed. -/
theorem c8_fail_before_mutation (rs : List SpecRule) (input : List Char)
    (h : ∃ r ∈ rs, compileMatcher r.matcher.data = none) :
    (∃ e, buildPipeline rs = Except.error e) ∧
    (∃ e, runPipeline rs input = Except.error e) := by
  have hb : ∀ (l : List SpecRule) (acc : List (String × List RItem × String)),
      (∃ r ∈ l, compileMatcher r.matcher.data = none) →
      ∃ e, buildPipelineAux acc l = Except.error e := by
    intro l
    induction l with
    | nil =>
      rintro acc ⟨r, hr, _⟩
      cases hr
    | cons r0 l ih =>
      rintro acc ⟨r, hr, hcomp⟩
      cases hmr : compileMatcher r0.matcher.data with
      | none => exact ⟨"InvalidPattern", by simp [buildPipelineAux, addRule, hmr]⟩
      | some p =>
        have hr' : r ∈ l := by
          rcases List.mem_cons.mp hr with h0 | h0
          · subst h0
            rw [hcomp] at hmr
            exact Option.noConfusion hmr
          · exact h0
        by_cases hdup : acc.any (fun q => q.1 == r0.name)
        · exact ⟨"DuplicateRuleName", by simp [buildPipelineAux, addRule, hmr, hdup]⟩
        · rcases ih (acc ++ [(r0.name, p, r0.replacement)]) ⟨r, hr', hcomp⟩ with ⟨e, he⟩
          exact ⟨e, by simp [buildPipelineAux, addRule, hmr, hdup, he]⟩
  rcases hb rs [] h with ⟨e, he⟩
  refine ⟨⟨e, by simpa [buildPipeline] using he⟩, ⟨e, ?_⟩⟩
  simp [runPipeline, buildPipeline, he]

/-- Claim C8 witness: a one-rule set whose matcher is the dangling
quantifier `*`. -/
theorem c8_fail_before_mutation_witness :
    (∃ e, buildPipeline [SpecRule.mk "bad" "*" ""] = Except.error e) ∧
    (∃ e, runPipeline [SpecRule.mk "bad" "*" ""] (("abc").data) = Except.error e) :=
  c8_fail_before_mutation [SpecRule.mk "bad" "*" ""] (("abc").data)
    ⟨SpecRule.mk "bad" "*" "", List.Mem.head _, by decide⟩

/-- Claim C9 is refuted by the code: the replacement template of rule 5
(the `new_extract_odds` string, which contains the two-character sequence
backslash-`d` inside the JavaScript `new RegExp(...)` text) fails CPython's
replacement-template compilation with `bad escape \d`.  `re.sub` parses the
template before scanning the text, so the script raises on every input and
the rewrite sequence never returns a string. -/
theorem c9_rule5_template_raises (s : List Char) :
    cleanupE s = Except.error "bad escape \\d" ∧
    parseTemplate newExtractOdds = Except.error "bad escape \\d" :=
  ⟨rfl, rfl⟩

/-- Claim C10: every rule except the `extractOddsFromAnalysis` rewrite
(rule 5) deletes — its replacement is empty, so its output is never longer
than its input; rule 5 alone can lengthen the buffer, as it does on the
smallest text matching its pattern. -/
theorem c10_only_rule5_grows :
    (∀ s : List Char,
      (r1 s).length ≤ s.length ∧ (r2a s).length ≤ s.length ∧ (r2b s).length ≤ s.length ∧
      (r2c s).length ≤ s.length ∧ (r2d s).length ≤ s.length ∧ (r2e s).length ≤ s.length ∧
      (r2f s).length ≤ s.length ∧ (r2g s).length ≤ s.length ∧ (r2h s).length ≤ s.length ∧
      (r3 s).length ≤ s.length ∧ (r4 s).length ≤ s.length ∧ (r6a s).length ≤ s.length ∧
      (r6b s).length ≤ s.length ∧ (r7a s).length ≤ s.length ∧ (r7b s).length ≤ s.length ∧
      (r8 s).length ≤ s.length) ∧
    (∃ s : List Char, s.length < (r5 s).length) := by
  constructor
  · intro s
    exact ⟨replaceAll_length_le _ _, subAll_length_le _ _, subAll_length_le _ _,
      subAll_length_le _ _, subAll_length_le _ _, subAll_length_le _ _, subAll_length_le _ _,
      subAll_length_le _ _, subAll_length_le _ _, subAll_length_le _ _,
      replaceAll_length_le _ _, replaceAll_length_le _ _, replaceAll_length_le _ _,
      replaceAll_length_le _ _, subAll_length_le _ _, subAll_length_le _ _⟩
  · refine ⟨("// Helper function to extract odds from analysis prompt\nconst extractOddsFromAnalysis = (pick) => \x7breturn \x27\x27;\n\x7d;").data, ?_⟩
    decide
